import Mathlib

/-!
Verification development for the project-initialization component
(`general/project/projectinit.go` of jfrog-cli-core).

The development embeds, as executable Lean definitions:
  - the Unix behaviour of Go's `path/filepath` functions used by the source
    (`Clean`, `Dir`, `Base`, `Join`), at the level of path elements, which is
    equivalent to the character-level algorithm of the Go standard library;
  - the data records written by the component (`BuildConfigFile` and the
    deployment `ConfigFile` with its resolver/deployer repositories);
  - the orchestration of `Run`: server-id resolution, two-pass technology
    detection, per-technology repository provisioning and config writing,
    build-config writing, and summary printing.  External collaborators
    (technology detector, repository provisioner, configuration lookup,
    file system, table printer) are supplied as an explicit environment,
    and `Run` returns the list of side effects it performed together with
    the error it returns, so that ordering, halting and frame properties
    can be stated and proved.
-/

namespace ProjectInit

/-- Extensionality for strings via their character data. -/
theorem strext {a b : String} (h : a.data = b.data) : a = b := by
  cases a
  cases b
  exact congrArg String.mk h

/-- The character data of an appended string is the appended data. -/
theorem strdata_append (a b : String) : (a ++ b).data = a.data ++ b.data := by
  cases a
  cases b
  rfl

/-- Appending the empty string on the right is the identity. -/
theorem strappend_empty (a : String) : a ++ "" = a := by
  apply strext
  simp [strdata_append]

/-- String append is associative. -/
theorem strappend_assoc (a b c : String) : a ++ b ++ c = a ++ (b ++ c) := by
  apply strext
  simp [strdata_append]

/-- Splitting a character list at every separator character, as Go's
`strings.Split(s, "/")` does: `splitSlashAux cs acc` scans `cs` with the
(reversed) pending element `acc`. -/
def splitSlashAux : List Char → List Char → List String
  | [], cur => [String.mk cur.reverse]
  | c :: rest, cur =>
    if c = '/' then String.mk cur.reverse :: splitSlashAux rest []
    else splitSlashAux rest (c :: cur)

/-- Go's `strings.Split(s, "/")`. -/
def splitSlash (s : String) : List String := splitSlashAux s.data []

/-- Drop characters up to (excluding) the first separator; used to compute
the prefix of a path up to its last separator, as Go's `filepath.Dir` does. -/
def dropUntilSep : List Char → List Char
  | [] => []
  | c :: rest => if c = '/' then c :: rest else dropUntilSep rest

/-- The prefix of the character list up to and including its last separator
(empty if there is no separator), mirroring the `path[0:i+1]` slice taken by
Go's `filepath.Dir`. -/
def takeThroughLastSep (cs : List Char) : List Char :=
  (dropUntilSep cs.reverse).reverse

/-- Go's `strings.Join(elems, "/")`. -/
def joinSlash : List String → String
  | [] => ""
  | [e] => e
  | e :: rest => e ++ "/" ++ joinSlash rest

/-- Whether the path is rooted (starts with a separator). -/
def isRooted (p : String) : Bool :=
  match p.data with
  | c :: _ => decide (c = '/')
  | [] => false

/-- The element-stack processing of Go's `path.Clean`: `.` and empty elements
have already been removed, and `..` elements pop the last retained element
when possible; on a rooted path a `..` at the root is dropped, on an unrooted
path leading `..` elements are retained.  `acc` is the reversed output. -/
def cleanElemsAux (rooted : Bool) : List String → List String → List String
  | acc, [] => acc.reverse
  | acc, e :: rest =>
    if e = ".." then
      match acc with
      | [] =>
        if rooted then cleanElemsAux rooted [] rest
        else cleanElemsAux rooted [".."] rest
      | top :: acc2 =>
        if top = ".." then cleanElemsAux rooted (e :: top :: acc2) rest
        else cleanElemsAux rooted acc2 rest
    else cleanElemsAux rooted (e :: acc) rest

/-- Go's `filepath.Clean` on Unix, modelled at the level of path elements:
equivalent to the character-level lazy-buffer algorithm of the Go standard
library. -/
def filepathClean (path : String) : String :=
  if path = "" then "."
  else
    let elems := (splitSlash path).filter (fun e => decide (e ≠ "" ∧ e ≠ "."))
    let out := cleanElemsAux (isRooted path) [] elems
    if isRooted path then "/" ++ joinSlash out
    else if out = [] then "." else joinSlash out

/-- Go's `filepath.Dir` on Unix: the prefix up to the last separator,
cleaned. -/
def filepathDir (path : String) : String :=
  filepathClean (String.mk (takeThroughLastSep path.data))

/-- Go's `filepath.Base` on Unix: the last non-empty element; `.` for the
empty path and `/` for a path consisting only of separators. -/
def filepathBase (path : String) : String :=
  if path = "" then "."
  else
    match ((splitSlash path).filter (fun e => decide (e ≠ ""))).getLast? with
    | none => "/"
    | some l => l

/-- Go's `filepath.Join` on Unix: leading empty elements are skipped, the
rest are joined with the separator and cleaned; all-empty input gives the
empty string. -/
def filepathJoin (elems : List String) : String :=
  match elems.dropWhile (fun e => decide (e = "")) with
  | [] => ""
  | es => filepathClean (joinSlash es)

-- Sanity checks of the `filepath` model against the documented behaviour of
-- the Go standard library.
example : filepathClean "a/c" = "a/c" := by decide
example : filepathClean "a//c" = "a/c" := by decide
example : filepathClean "a/c/." = "a/c" := by decide
example : filepathClean "a/c/b/.." = "a/c" := by decide
example : filepathClean "/../a/c" = "/a/c" := by decide
example : filepathClean "/../a/b/../././/c" = "/a/c" := by decide
example : filepathClean "" = "." := by decide
example : filepathClean "/" = "/" := by decide
example : filepathClean "abc/" = "abc" := by decide
example : filepathClean "./a" = "a" := by decide
example : filepathClean ".." = ".." := by decide
example : filepathClean "../../a" = "../../a" := by decide
example : filepathClean "/abc/" = "/abc" := by decide
example : filepathBase "/foo/bar" = "bar" := by decide
example : filepathBase "/foo/bar/" = "bar" := by decide
example : filepathBase "/" = "/" := by decide
example : filepathBase "" = "." := by decide
example : filepathBase "abc" = "abc" := by decide
example : filepathDir "/foo/bar" = "/foo" := by decide
example : filepathDir "/foo/bar/" = "/foo/bar" := by decide
example : filepathDir "abc" = "." := by decide
example : filepathDir "/" = "/" := by decide
example : filepathDir "" = "." := by decide
example : filepathJoin ["a", "b", "c"] = "a/b/c" := by decide
example : filepathJoin ["a", ""] = "a" := by decide
example : filepathJoin ["", "a"] = "a" := by decide
example : filepathJoin ["a", "b//c"] = "a/b/c" := by decide

/-- Technology tag.  In the source this is `coreutils.Technology`, a string
type defined outside this component; the supported technologies are the six
handled by the per-technology switch, and `Other` stands for any further
detected technology identifier. -/
inductive Technology
  | Maven
  | Gradle
  | Npm
  | Go
  | Pip
  | Pipenv
  | Other (name : String)
deriving DecidableEq

/-- Modelled from the spec: the string value of the external
`coreutils.Technology` identifier, whose lowercase form names the per
technology config file (the spec's example file is `npm.yaml`). -/
def techToString : Technology → String
  | .Maven => "maven"
  | .Gradle => "gradle"
  | .Npm => "npm"
  | .Go => "go"
  | .Pip => "pip"
  | .Pipenv => "pipenv"
  | .Other name => name

/-- Go's `strings.ToLower` for the ASCII identifiers used here. -/
def strToLower (s : String) : String := String.mk (s.data.map Char.toLower)

/-- The six supported technologies of the per-technology switch. -/
def supportedTechnologies : List Technology :=
  [.Maven, .Gradle, .Npm, .Go, .Pip, .Pipenv]

/-- Modelled from the spec: default virtual repository name for Maven
(defined in this repository outside the given source file). -/
def MavenVirtualDefaultName : String := "default-maven-virtual"

/-- Modelled from the spec: default virtual repository name for Gradle. -/
def GradleVirtualDefaultName : String := "default-gradle-virtual"

/-- Modelled from the spec: default virtual repository name for npm. -/
def NpmVirtualDefaultName : String := "default-npm-virtual"

/-- Modelled from the spec: default virtual repository name for Go. -/
def GoVirtualDefaultName : String := "default-go-virtual"

/-- Modelled from the spec: default virtual repository name for Pip and
Pipenv (both use the pypi repositories). -/
def PypiVirtualDefaultName : String := "default-pypi-virtual"

/-- Modelled from the spec: the build-config version constant
`artifactoryCommandsUtils.BuildConfVersion` (defined in this repository
outside the given source file). -/
def BuildConfVersion : Nat := 1

/-- Modelled from the spec: the repository reference of
`artifactoryUtils.Repository` as written into a deployment config — a server
identifier and either a single repository name or separate release/snapshot
repository names; empty fields are omitted from the YAML output. -/
structure Repository where
  ServerId : String := ""
  Repo : String := ""
  SnapshotRepo : String := ""
  ReleaseRepo : String := ""
deriving DecidableEq

/-- The key/value fields of a repository reference as serialized to YAML:
a field is present if and only if its value is non-empty (the `omitempty`
tags of the source struct). -/
def Repository.yamlFields (r : Repository) : List (String × String) :=
  (if r.ServerId = "" then [] else [("serverId", r.ServerId)]) ++
  (if r.Repo = "" then [] else [("repo", r.Repo)]) ++
  (if r.SnapshotRepo = "" then [] else [("snapshotRepo", r.SnapshotRepo)]) ++
  (if r.ReleaseRepo = "" then [] else [("releaseRepo", r.ReleaseRepo)])

/-- Modelled from the spec: the deployment config record
`artifactoryCommandsUtils.ConfigFile` as written per detected technology. -/
structure ConfigFile where
  Version : Nat
  ConfigType : String
  Resolver : Repository := {}
  Deployer : Repository := {}
deriving DecidableEq

/-- Render a list of key/value fields at the given indentation. -/
def renderFields (indent : String) : List (String × String) → String
  | [] => ""
  | kv :: rest => indent ++ kv.1 ++ ": " ++ kv.2 ++ "\n" ++ renderFields indent rest

/-- Modelled from the spec: the YAML serialization of a deployment config
record — a pure function of the record, omitting empty scalar fields. -/
def yamlMarshalConfigFile (c : ConfigFile) : String :=
  (if c.Version = 0 then "" else "version: " ++ toString c.Version ++ "\n") ++
  (if c.ConfigType = "" then "" else "type: " ++ c.ConfigType ++ "\n") ++
  "resolver:\n" ++ renderFields "  " c.Resolver.yamlFields ++
  "deployer:\n" ++ renderFields "  " c.Deployer.yamlFields

/-- The top-level build config record (`BuildConfigFile` in the source),
with `version`, `type` and `name` YAML fields, all `omitempty`. -/
structure BuildConfigFile where
  Version : Nat
  ConfigType : String
  BuildName : String
deriving DecidableEq

/-- Modelled from the spec: the YAML serialization of the build config
record — a pure function of the record, omitting empty fields. -/
def yamlMarshalBuildConfigFile (b : BuildConfigFile) : String :=
  (if b.Version = 0 then "" else "version: " ++ toString b.Version ++ "\n") ++
  (if b.ConfigType = "" then "" else "type: " ++ b.ConfigType ++ "\n") ++
  (if b.BuildName = "" then "" else "name: " ++ b.BuildName ++ "\n")

/-- The kind of default repository being provisioned. -/
inductive RepoKind
  | localRepo
  | remoteRepo
  | virtualRepo
deriving DecidableEq

/-- Errors of the external collaborators, carried through unchanged. -/
abbrev Err := String

/-- A side effect performed by the orchestrator, in order: a technology
detection call (with its recursion flag), a repository provisioning call,
a directory creation, a file write (with the exact bytes written), or the
summary print. -/
inductive Effect
  | detectCall (recursive : Bool)
  | provision (kind : RepoKind) (tech : Technology) (serverId : String)
  | mkdirCall (path : String)
  | write (path : String) (bytes : String)
  | printSummary
deriving DecidableEq

/-- The external collaborators of the orchestrator: configuration lookup,
technology detector, repository provisioner, file system, and the table
printer.  Each returns the error (if any) that the corresponding call
produces. -/
structure Env where
  getDefaultServer : Except Err String
  detect : String → Bool → Except Err (List Technology)
  createLocal : Technology → String → Option Err
  createRemote : Technology → String → Option Err
  createVirtual : Technology → String → Option Err
  mkdir : String → Option Err
  write : String → String → Option Err
  printTable : Option Err

/-- The receiver of `Run`: a project path and an optional server id. -/
structure ProjectInitCommand where
  projectPath : String
  serverId : String
deriving DecidableEq

/-- Server-id resolution (lines 42-48 of the source): when no server id was
supplied, the default server's id is looked up; a lookup failure is returned
unchanged. -/
def resolveServerId (env : Env) (pic : ProjectInitCommand) : Except Err String :=
  if pic.serverId = "" then env.getDefaultServer else .ok pic.serverId

/-- `detectTechnologies` (lines 146-159 of the source): detect on the project
path with recursion disabled; if that succeeds with an empty set, retry with
recursion enabled.  The first component records the recursion flags of the
detection calls made, in order. -/
def detectTechnologies (env : Env) (projectPath : String) :
    List Bool × Except Err (List Technology) :=
  match env.detect projectPath false with
  | .error e => ([false], .error e)
  | .ok m =>
    if m.isEmpty then
      match env.detect projectPath true with
      | .error e => ([false, true], .error e)
      | .ok m2 => ([false, true], .ok m2)
    else ([false], .ok m)

/-- The `.jfrog/projects` directory of the project (computed identically in
`createBuildConfig` and `createProjectBuildConfigs`). -/
def projectsDir (projectPath : String) : String :=
  filepathJoin [projectPath, ".jfrog", "projects"]

/-- The constant `buildFileName` of the source. -/
def buildFileName : String := "build.yaml"

/-- The path of the top-level build config file. -/
def buildCfgPath (projectPath : String) : String :=
  filepathJoin [projectsDir projectPath, buildFileName]

/-- The `name` written into the build config: `filepath.Base(filepath.Dir(projectPath))`
(line 173 of the source). -/
def projectDirName (projectPath : String) : String :=
  filepathBase (filepathDir projectPath)

/-- The build config record constructed by `createBuildConfig` (line 174). -/
def buildConfigFileOf (projectPath : String) : BuildConfigFile :=
  { Version := 1, ConfigType := "build", BuildName := projectDirName projectPath }

/-- The bytes written for the build config file. -/
def buildCfgBytes (projectPath : String) : String :=
  yamlMarshalBuildConfigFile (buildConfigFileOf projectPath)

/-- `createBuildConfig` (lines 167-180 of the source): create the projects
directory, then write the marshalled build config; errors are returned
unchanged. -/
def createBuildConfig (env : Env) (projectPath : String) : List Effect × Option Err :=
  let dir := projectsDir projectPath
  match env.mkdir dir with
  | some e => ([.mkdirCall dir], some e)
  | none =>
    let p := buildCfgPath projectPath
    let bytes := buildCfgBytes projectPath
    match env.write p bytes with
    | some e => ([.mkdirCall dir, .write p bytes], some e)
    | none => ([.mkdirCall dir, .write p bytes], none)

/-- `createDefaultReposIfNeeded` (lines 182-193 of the source): provision
the default local, then remote, then virtual repository; the first failure
is returned unchanged. -/
def createDefaultReposIfNeeded (env : Env) (tech : Technology) (serverId : String) :
    List Effect × Option Err :=
  match env.createLocal tech serverId with
  | some e => ([.provision .localRepo tech serverId], some e)
  | none =>
    match env.createRemote tech serverId with
    | some e =>
      ([.provision .localRepo tech serverId, .provision .remoteRepo tech serverId], some e)
    | none =>
      match env.createVirtual tech serverId with
      | some e =>
        ([.provision .localRepo tech serverId, .provision .remoteRepo tech serverId,
          .provision .virtualRepo tech serverId], some e)
      | none =>
        ([.provision .localRepo tech serverId, .provision .remoteRepo tech serverId,
          .provision .virtualRepo tech serverId], none)

/-- The per-technology config file name, `strings.ToLower(string(tech)) + ".yaml"`
(lines 200-201 of the source). -/
def techConfigFileName (tech : Technology) : String :=
  strToLower (techToString tech) ++ ".yaml"

/-- The path of the per-technology deployment config file. -/
def techCfgPath (projectPath : String) (tech : Technology) : String :=
  filepathJoin [projectsDir projectPath, techConfigFileName tech]

/-- The deployment config record constructed by `createProjectBuildConfigs`
(lines 202-228 of the source): version and lowercase type, resolver and
deployer carrying the server id, and the per-technology switch filling the
repository names — release/snapshot repositories for Maven, a single
repository for Gradle/Npm/Go/Pip/Pipenv, and nothing for any other
technology. -/
def techConfigFile (tech : Technology) (serverId : String) : ConfigFile :=
  let base : ConfigFile :=
    { Version := BuildConfVersion, ConfigType := strToLower (techToString tech),
      Resolver := { ServerId := serverId }, Deployer := { ServerId := serverId } }
  match tech with
  | .Maven =>
    { base with
      Resolver := { base.Resolver with
        ReleaseRepo := MavenVirtualDefaultName, SnapshotRepo := MavenVirtualDefaultName }
      Deployer := { base.Deployer with
        ReleaseRepo := MavenVirtualDefaultName, SnapshotRepo := MavenVirtualDefaultName } }
  | .Gradle =>
    { base with
      Resolver := { base.Resolver with Repo := GradleVirtualDefaultName }
      Deployer := { base.Deployer with Repo := GradleVirtualDefaultName } }
  | .Npm =>
    { base with
      Resolver := { base.Resolver with Repo := NpmVirtualDefaultName }
      Deployer := { base.Deployer with Repo := NpmVirtualDefaultName } }
  | .Go =>
    { base with
      Resolver := { base.Resolver with Repo := GoVirtualDefaultName }
      Deployer := { base.Deployer with Repo := GoVirtualDefaultName } }
  | .Pipenv =>
    { base with
      Resolver := { base.Resolver with Repo := PypiVirtualDefaultName }
      Deployer := { base.Deployer with Repo := PypiVirtualDefaultName } }
  | .Pip =>
    { base with
      Resolver := { base.Resolver with Repo := PypiVirtualDefaultName }
      Deployer := { base.Deployer with Repo := PypiVirtualDefaultName } }
  | .Other _ => base

/-- The bytes written for a technology's deployment config file. -/
def techCfgBytes (tech : Technology) (serverId : String) : String :=
  yamlMarshalConfigFile (techConfigFile tech serverId)

/-- `createProjectBuildConfigs` (lines 195-235 of the source): create the
projects directory, then write the marshalled deployment config; errors are
returned unchanged. -/
def createProjectBuildConfigs (env : Env) (tech : Technology)
    (projectPath serverId : String) : List Effect × Option Err :=
  let dir := projectsDir projectPath
  match env.mkdir dir with
  | some e => ([.mkdirCall dir], some e)
  | none =>
    let p := techCfgPath projectPath tech
    let bytes := techCfgBytes tech serverId
    match env.write p bytes with
    | some e => ([.mkdirCall dir, .write p bytes], some e)
    | none => ([.mkdirCall dir, .write p bytes], none)

/-- The loop body of `Run` over the detected technologies (lines 54-64 of
the source): provision the technology's repositories, then write its config;
the first error halts the loop and is returned unchanged. -/
def runTechLoop (env : Env) (projectPath serverId : String) :
    List Technology → List Effect × Option Err
  | [] => ([], none)
  | t :: ts =>
    match createDefaultReposIfNeeded env t serverId with
    | (es1, some e) => (es1, some e)
    | (es1, none) =>
      match createProjectBuildConfigs env t projectPath serverId with
      | (es2, some e) => (es1 ++ es2, some e)
      | (es2, none) =>
        match runTechLoop env projectPath serverId ts with
        | (es3, r) => (es1 ++ es2 ++ es3, r)

/-- The detection call effects of a run. -/
def detectEffects (env : Env) (projectPath : String) : List Effect :=
  (detectTechnologies env projectPath).1.map Effect.detectCall

/-- `Run` (lines 41-75 of the source): resolve the server id, detect
technologies, loop over them, write the build config, then print the
summary; the error of the summary print (if any) is what `Run` returns on
the fully successful path. -/
def Run (env : Env) (pic : ProjectInitCommand) : List Effect × Option Err :=
  match resolveServerId env pic with
  | .error e => ([], some e)
  | .ok sid =>
    match detectTechnologies env pic.projectPath with
    | (dcalls, .error e) => (dcalls.map Effect.detectCall, some e)
    | (dcalls, .ok techs) =>
      match runTechLoop env pic.projectPath sid techs with
      | (es, some e) => (dcalls.map Effect.detectCall ++ es, some e)
      | (es, none) =>
        match createBuildConfig env pic.projectPath with
        | (bs, some e) => (dcalls.map Effect.detectCall ++ es ++ bs, some e)
        | (bs, none) =>
          (dcalls.map Effect.detectCall ++ es ++ bs ++ [Effect.printSummary],
           env.printTable)

/-! ### Path lemmas

Canonical absolute paths built from plain components, and how the
`filepath` model acts on them. -/

/-- A plain path element: non-empty, not a dot element, and without
separator characters. -/
def plainComp (e : String) : Prop :=
  e ≠ "" ∧ e ≠ "." ∧ e ≠ ".." ∧ '/' ∉ e.data

instance (e : String) : Decidable (plainComp e) := by
  unfold plainComp
  infer_instance

/-- The canonical absolute path with the given elements: one separator
before each element, no trailing separator. -/
def absPathOf : List String → String
  | [] => ""
  | c :: rest => "/" ++ c ++ absPathOf rest

theorem strempty_append (a : String) : "" ++ a = a := by
  apply strext
  rw [strdata_append]
  rfl

theorem absPathOf_append (xs ys : List String) :
    absPathOf (xs ++ ys) = absPathOf xs ++ absPathOf ys := by
  induction xs with
  | nil => simp [absPathOf, strempty_append]
  | cons c rest ih => simp [absPathOf, ih, strappend_assoc]

theorem splitSlashAux_noSep : ∀ (cs : List Char) (acc : List Char), '/' ∉ cs →
    splitSlashAux cs acc = [String.mk (acc.reverse ++ cs)] := by
  intro cs
  induction cs with
  | nil => intro acc _; simp [splitSlashAux]
  | cons c rest ih =>
      intro acc h
      have hc : ¬ c = '/' := fun hcc => h (hcc ▸ List.mem_cons_self c rest)
      have hrest : '/' ∉ rest := fun hm => h (List.mem_cons_of_mem c hm)
      simp only [splitSlashAux, if_neg hc]
      rw [ih (c :: acc) hrest]
      simp

theorem splitSlashAux_sep : ∀ (cs t acc : List Char), '/' ∉ cs →
    splitSlashAux (cs ++ '/' :: t) acc =
      String.mk (acc.reverse ++ cs) :: splitSlashAux t [] := by
  intro cs
  induction cs with
  | nil => intro t acc _; simp [splitSlashAux]
  | cons c rest ih =>
      intro t acc h
      have hc : ¬ c = '/' := fun hcc => h (hcc ▸ List.mem_cons_self c rest)
      have hrest : '/' ∉ rest := fun hm => h (List.mem_cons_of_mem c hm)
      show (if c = '/' then String.mk acc.reverse :: splitSlashAux (rest ++ '/' :: t) []
            else splitSlashAux (rest ++ '/' :: t) (c :: acc)) = _
      rw [if_neg hc]
      rw [ih t (c :: acc) hrest]
      simp

theorem mk_data (s : String) : String.mk s.data = s := by
  cases s
  rfl

theorem splitSlashAux_abs : ∀ (comps : List String) (first : String),
    '/' ∉ first.data → (∀ e ∈ comps, plainComp e) →
    splitSlashAux (first.data ++ (absPathOf comps).data) [] = first :: comps := by
  intro comps
  induction comps with
  | nil =>
      intro first hf _
      simp only [absPathOf]
      rw [List.append_nil, splitSlashAux_noSep first.data [] hf]
      simp [mk_data]
  | cons c rest ih =>
      intro first hf hv
      have hc : plainComp c := hv c (List.mem_cons_self c rest)
      have hrest : ∀ e ∈ rest, plainComp e := fun e he => hv e (List.mem_cons_of_mem c he)
      have hdata : (absPathOf (c :: rest)).data = '/' :: (c.data ++ (absPathOf rest).data) := by
        show (("/" ++ c) ++ absPathOf rest).data = _
        rw [strdata_append, strdata_append]
        rfl
      rw [hdata]
      rw [splitSlashAux_sep first.data _ [] hf]
      rw [ih c hc.2.2.2 hrest]
      simp [mk_data]

theorem splitSlashAux_abs_slash : ∀ (comps : List String) (first : String),
    '/' ∉ first.data → (∀ e ∈ comps, plainComp e) →
    splitSlashAux (first.data ++ (absPathOf comps).data ++ ['/']) [] =
      (first :: comps) ++ [""] := by
  intro comps
  induction comps with
  | nil =>
      intro first hf _
      simp only [absPathOf]
      rw [List.append_nil, splitSlashAux_sep first.data [] [] hf]
      simp [mk_data, splitSlashAux]
  | cons c rest ih =>
      intro first hf hv
      have hc : plainComp c := hv c (List.mem_cons_self c rest)
      have hrest : ∀ e ∈ rest, plainComp e := fun e he => hv e (List.mem_cons_of_mem c he)
      have hdata : (absPathOf (c :: rest)).data = '/' :: (c.data ++ (absPathOf rest).data) := by
        show (("/" ++ c) ++ absPathOf rest).data = _
        rw [strdata_append, strdata_append]
        rfl
      rw [hdata]
      rw [show first.data ++ '/' :: (c.data ++ (absPathOf rest).data) ++ ['/'] =
            first.data ++ '/' :: (c.data ++ (absPathOf rest).data ++ ['/']) by simp]
      rw [splitSlashAux_sep first.data _ [] hf]
      rw [ih c hc.2.2.2 hrest]
      simp [mk_data]

theorem split_abs (comps : List String) (hv : ∀ e ∈ comps, plainComp e) :
    splitSlash (absPathOf comps) = "" :: comps := by
  have h := splitSlashAux_abs comps "" (by simp [show ("" : String).data = [] from rfl]) hv
  rw [show ("" : String).data = [] from rfl, List.nil_append] at h
  exact h

theorem split_abs_slash (comps : List String) (hv : ∀ e ∈ comps, plainComp e) :
    splitSlash (absPathOf comps ++ "/") = ("" :: comps) ++ [""] := by
  have h := splitSlashAux_abs_slash comps "" (by simp [show ("" : String).data = [] from rfl]) hv
  rw [show ("" : String).data = [] from rfl, List.nil_append] at h
  show splitSlashAux (absPathOf comps ++ "/").data [] = _
  rw [strdata_append, show ("/" : String).data = ['/'] from rfl]
  exact h

theorem cleanElemsAux_no_dotdot : ∀ (elems acc : List String) (rooted : Bool),
    (∀ e ∈ elems, e ≠ "..") → cleanElemsAux rooted acc elems = acc.reverse ++ elems := by
  intro elems
  induction elems with
  | nil => intro acc rooted _; simp [cleanElemsAux]
  | cons e rest ih =>
      intro acc rooted h
      have he : ¬ e = ".." := h e (List.mem_cons_self e rest)
      have hrest : ∀ x ∈ rest, x ≠ ".." := fun x hx => h x (List.mem_cons_of_mem e hx)
      simp only [cleanElemsAux, if_neg he]
      rw [ih (e :: acc) rooted hrest]
      simp

theorem filter_plain (comps : List String) (hv : ∀ e ∈ comps, plainComp e) :
    comps.filter (fun e => decide (e ≠ "" ∧ e ≠ ".")) = comps := by
  rw [List.filter_eq_self]
  intro e he
  exact decide_eq_true ⟨(hv e he).1, (hv e he).2.1⟩

theorem filter_nonempty_plain (comps : List String) (hv : ∀ e ∈ comps, plainComp e) :
    comps.filter (fun e => decide (e ≠ "")) = comps := by
  rw [List.filter_eq_self]
  intro e he
  exact decide_eq_true (hv e he).1

theorem join_eq_abs : ∀ (comps : List String), comps ≠ [] →
    "/" ++ joinSlash comps = absPathOf comps
  | [], h => absurd rfl h
  | [e], _ => by
      simp only [joinSlash, absPathOf]
      rw [strappend_empty]
  | e :: r :: rs, _ => by
      have ih := join_eq_abs (r :: rs) (List.cons_ne_nil r rs)
      show "/" ++ joinSlash (e :: r :: rs) = absPathOf (e :: r :: rs)
      rw [show joinSlash (e :: r :: rs) = e ++ "/" ++ joinSlash (r :: rs) from rfl]
      rw [show absPathOf (e :: r :: rs) = "/" ++ e ++ absPathOf (r :: rs) by rw [absPathOf]]
      rw [← ih]
      apply strext
      simp [strdata_append]

theorem abs_data_cons (c : String) (rest : List String) :
    (absPathOf (c :: rest)).data = '/' :: (c.data ++ (absPathOf rest).data) := by
  show (("/" ++ c) ++ absPathOf rest).data = _
  rw [strdata_append, strdata_append]
  rfl

theorem notEmpty_abs (comps : List String) (h : comps ≠ []) :
    absPathOf comps ≠ "" := by
  match comps, h with
  | c :: rest, _ =>
      intro he
      have hx : (absPathOf (c :: rest)).data = [] := by rw [he]
      rw [abs_data_cons] at hx
      exact List.cons_ne_nil _ _ hx

theorem rooted_abs (comps : List String) (h : comps ≠ []) :
    isRooted (absPathOf comps) = true := by
  match comps, h with
  | c :: rest, _ =>
      unfold isRooted
      rw [abs_data_cons]
      rfl

theorem notEmpty_abs_slash (comps : List String) :
    absPathOf comps ++ "/" ≠ "" := by
  intro he
  have hx : (absPathOf comps ++ "/").data = [] := by rw [he]
  rw [strdata_append] at hx
  simpa using congrArg List.length hx

theorem rooted_abs_slash (comps : List String) (h : comps ≠ []) :
    isRooted (absPathOf comps ++ "/") = true := by
  match comps, h with
  | c :: rest, _ =>
      unfold isRooted
      rw [strdata_append, abs_data_cons]
      rfl

theorem filter_cons_empty (comps : List String) :
    (("" :: comps).filter (fun e => decide (e ≠ "" ∧ e ≠ "."))) =
      comps.filter (fun e => decide (e ≠ "" ∧ e ≠ ".")) := by
  simp

theorem clean_abs (comps : List String) (h : comps ≠ [])
    (hv : ∀ e ∈ comps, plainComp e) :
    filepathClean (absPathOf comps) = absPathOf comps := by
  have hdots : ∀ e ∈ comps, e ≠ ".." := fun e he => (hv e he).2.2.1
  have hfilter : (("" :: comps).filter (fun e => decide (e ≠ "" ∧ e ≠ "."))) = comps := by
    rw [filter_cons_empty, filter_plain comps hv]
  unfold filepathClean
  rw [if_neg (notEmpty_abs comps h)]
  simp only [split_abs comps hv, hfilter, rooted_abs comps h,
    cleanElemsAux_no_dotdot comps [] true hdots, List.reverse_nil, List.nil_append,
    eq_self_iff_true, if_true]
  exact join_eq_abs comps h

theorem clean_abs_slash (comps : List String) (h : comps ≠ [])
    (hv : ∀ e ∈ comps, plainComp e) :
    filepathClean (absPathOf comps ++ "/") = absPathOf comps := by
  have hdots : ∀ e ∈ comps, e ≠ ".." := fun e he => (hv e he).2.2.1
  have hfilter : ((("" :: comps) ++ [""]).filter (fun e => decide (e ≠ "" ∧ e ≠ "."))) = comps := by
    rw [List.filter_append, filter_cons_empty, filter_plain comps hv]
    simp
  unfold filepathClean
  rw [if_neg (notEmpty_abs_slash comps)]
  simp only [split_abs_slash comps hv, hfilter, rooted_abs_slash comps h,
    cleanElemsAux_no_dotdot comps [] true hdots, List.reverse_nil, List.nil_append,
    eq_self_iff_true, if_true]
  exact join_eq_abs comps h

theorem dropUntilSep_append (as bs : List Char) (h : '/' ∉ as) :
    dropUntilSep (as ++ bs) = dropUntilSep bs := by
  induction as with
  | nil => rfl
  | cons a rest ih =>
      have ha : ¬ a = '/' := fun hh => h (hh ▸ List.mem_cons_self a rest)
      have hrest : '/' ∉ rest := fun hm => h (List.mem_cons_of_mem a hm)
      simp only [List.cons_append, dropUntilSep, if_neg ha]
      exact ih hrest

theorem takeThroughLastSep_append (xs ys : List Char) (h : '/' ∉ ys) :
    takeThroughLastSep (xs ++ '/' :: ys) = xs ++ ['/'] := by
  have hrev : '/' ∉ ys.reverse := by simpa using h
  unfold takeThroughLastSep
  have h1 : (xs ++ '/' :: ys).reverse = ys.reverse ++ '/' :: xs.reverse := by
    simp
  rw [h1, dropUntilSep_append _ _ hrev]
  simp [dropUntilSep]

theorem takeThroughLastSep_trailing (cs : List Char) :
    takeThroughLastSep (cs ++ ['/']) = cs ++ ['/'] :=
  takeThroughLastSep_append cs [] (by simp)

theorem abs_data_single (l : String) : (absPathOf [l]).data = '/' :: l.data := by
  rw [abs_data_cons]
  show '/' :: (l.data ++ ("" : String).data) = '/' :: l.data
  rw [show ("" : String).data = [] from rfl, List.append_nil]

theorem abs_append_single (comps : List String) (l : String) :
    (absPathOf (comps ++ [l])).data = (absPathOf comps).data ++ '/' :: l.data := by
  rw [absPathOf_append, strdata_append, abs_data_single]

theorem mk_append_slash (a : String) : String.mk (a.data ++ ['/']) = a ++ "/" := by
  apply strext
  rw [strdata_append]

theorem dir_abs (comps : List String) (l : String) (h : comps ≠ [])
    (hv : ∀ e ∈ comps, plainComp e) (hl : plainComp l) :
    filepathDir (absPathOf (comps ++ [l])) = absPathOf comps := by
  unfold filepathDir
  rw [abs_append_single, takeThroughLastSep_append _ _ hl.2.2.2, mk_append_slash]
  exact clean_abs_slash comps h hv

theorem dir_abs_slash (comps : List String) (h : comps ≠ [])
    (hv : ∀ e ∈ comps, plainComp e) :
    filepathDir (absPathOf comps ++ "/") = absPathOf comps := by
  unfold filepathDir
  have h1 : (absPathOf comps ++ "/").data = (absPathOf comps).data ++ ['/'] := by
    rw [strdata_append]
  rw [h1, takeThroughLastSep_trailing, mk_append_slash]
  exact clean_abs_slash comps h hv

theorem filter_ne_cons_empty (comps : List String) :
    (("" :: comps).filter (fun e => decide (e ≠ ""))) =
      comps.filter (fun e => decide (e ≠ "")) := by
  simp

theorem base_abs (comps : List String) (h : comps ≠ [])
    (hv : ∀ e ∈ comps, plainComp e) :
    filepathBase (absPathOf comps) = comps.getLast?.getD "" := by
  unfold filepathBase
  rw [if_neg (notEmpty_abs comps h)]
  rw [split_abs comps hv, filter_ne_cons_empty, filter_nonempty_plain comps hv]
  rcases List.eq_nil_or_concat comps with rfl | ⟨cs, x, rfl⟩
  · exact absurd rfl h
  · simp [List.getLast?_concat]

theorem base_abs_slash (comps : List String) (h : comps ≠ [])
    (hv : ∀ e ∈ comps, plainComp e) :
    filepathBase (absPathOf comps ++ "/") = comps.getLast?.getD "" := by
  unfold filepathBase
  rw [if_neg (notEmpty_abs_slash comps)]
  rw [split_abs_slash comps hv, List.filter_append, filter_ne_cons_empty,
    filter_nonempty_plain comps hv]
  rcases List.eq_nil_or_concat comps with rfl | ⟨cs, x, rfl⟩
  · exact absurd rfl h
  · simp [List.getLast?_concat]

theorem join_abs (comps more : List String) (h : comps ≠ [])
    (hv : ∀ e ∈ comps, plainComp e) (hm : more ≠ []) (hvm : ∀ e ∈ more, plainComp e) :
    filepathJoin (absPathOf comps :: more) = absPathOf (comps ++ more) := by
  have hne := notEmpty_abs comps h
  cases more with
  | nil => exact absurd rfl hm
  | cons m ms =>
    have hd : (absPathOf comps :: m :: ms).dropWhile (fun e => decide (e = "")) =
        absPathOf comps :: m :: ms := by
      rw [List.dropWhile_cons]
      simp [hne]
    have hne2 : comps ++ m :: ms ≠ [] := by
      intro hx
      have hlen := congrArg List.length hx
      simp at hlen
    have hv2 : ∀ e ∈ comps ++ m :: ms, plainComp e := by
      intro e he
      rcases List.mem_append.mp he with h1 | h2
      · exact hv e h1
      · exact hvm e h2
    unfold filepathJoin
    rw [hd]
    show filepathClean (joinSlash (absPathOf comps :: m :: ms)) = _
    rw [show joinSlash (absPathOf comps :: m :: ms) =
          absPathOf comps ++ "/" ++ joinSlash (m :: ms) from rfl]
    rw [strappend_assoc, join_eq_abs (m :: ms) (List.cons_ne_nil m ms), ← absPathOf_append]
    exact clean_abs _ hne2 hv2

theorem projectsDir_abs (comps : List String) (h : comps ≠ [])
    (hv : ∀ e ∈ comps, plainComp e) :
    projectsDir (absPathOf comps) = absPathOf (comps ++ [".jfrog", "projects"]) := by
  unfold projectsDir
  exact join_abs comps [".jfrog", "projects"] h hv (by simp) (by decide)

theorem valid_projects_append (comps : List String) (hv : ∀ e ∈ comps, plainComp e) :
    ∀ e ∈ comps ++ [".jfrog", "projects"], plainComp e := by
  intro e he
  rcases List.mem_append.mp he with h1 | h2
  · exact hv e h1
  · simp only [List.mem_cons, List.not_mem_nil, or_false] at h2
    rcases h2 with rfl | rfl
    · decide
    · decide

theorem nonEmpty_projects_append (comps : List String) :
    comps ++ [".jfrog", "projects"] ≠ [] := by
  intro hx
  have hlen := congrArg List.length hx
  simp at hlen

theorem joinFile_abs (comps : List String) (fname : String) (h : comps ≠ [])
    (hv : ∀ e ∈ comps, plainComp e) (hf : plainComp fname) :
    filepathJoin [absPathOf comps, fname] = absPathOf (comps ++ [fname]) := by
  refine join_abs comps [fname] h hv (List.cons_ne_nil _ _) ?_
  intro e he
  rw [List.mem_singleton] at he
  exact he ▸ hf

theorem buildCfgPath_abs (comps : List String) (h : comps ≠ [])
    (hv : ∀ e ∈ comps, plainComp e) :
    buildCfgPath (absPathOf comps) =
      absPathOf (comps ++ [".jfrog", "projects", "build.yaml"]) := by
  unfold buildCfgPath
  rw [projectsDir_abs comps h hv]
  rw [joinFile_abs _ buildFileName (nonEmpty_projects_append comps)
    (valid_projects_append comps hv) (by decide)]
  simp [buildFileName]

theorem techCfgPath_abs (comps : List String) (tech : Technology) (h : comps ≠ [])
    (hv : ∀ e ∈ comps, plainComp e) (hf : plainComp (techConfigFileName tech)) :
    techCfgPath (absPathOf comps) tech =
      absPathOf (comps ++ [".jfrog", "projects", techConfigFileName tech]) := by
  unfold techCfgPath
  rw [projectsDir_abs comps h hv]
  rw [joinFile_abs _ (techConfigFileName tech) (nonEmpty_projects_append comps)
    (valid_projects_append comps hv) hf]
  simp

/-! ### Orchestration lemmas -/

/-- The calls a single technology contributes to the loop, in order, paired
with the result the environment assigns to each call. -/
def techPlan (env : Env) (projectPath serverId : String) (t : Technology) :
    List (Effect × Option Err) :=
  [(.provision .localRepo t serverId, env.createLocal t serverId),
   (.provision .remoteRepo t serverId, env.createRemote t serverId),
   (.provision .virtualRepo t serverId, env.createVirtual t serverId),
   (.mkdirCall (projectsDir projectPath), env.mkdir (projectsDir projectPath)),
   (.write (techCfgPath projectPath t) (techCfgBytes t serverId),
    env.write (techCfgPath projectPath t) (techCfgBytes t serverId))]

/-- The full planned call sequence of the technology loop. -/
def planOf (env : Env) (projectPath serverId : String) :
    List Technology → List (Effect × Option Err)
  | [] => []
  | t :: ts => techPlan env projectPath serverId t ++ planOf env projectPath serverId ts

/-- Execute a planned call sequence: perform each call in order and halt at
the first one that fails, returning its error unchanged. -/
def execPlanned : List (Effect × Option Err) → List Effect × Option Err
  | [] => ([], none)
  | (e, some err) :: _ => ([e], some err)
  | (e, none) :: rest => (e :: (execPlanned rest).1, (execPlanned rest).2)

/-- The technology loop is exactly the in-order execution of the planned
calls with halt-at-first-failure semantics. -/
theorem runTechLoop_eq_execPlanned (env : Env) (p s : String) :
    ∀ techs : List Technology,
      runTechLoop env p s techs = execPlanned (planOf env p s techs) := by
  intro techs
  induction techs with
  | nil => rfl
  | cons t ts ih =>
      simp only [planOf, techPlan, List.cons_append, List.nil_append]
      cases hl : env.createLocal t s with
      | some e =>
          simp [runTechLoop, createDefaultReposIfNeeded, execPlanned, hl]
      | none =>
        cases hr : env.createRemote t s with
        | some e =>
            simp [runTechLoop, createDefaultReposIfNeeded, execPlanned, hl, hr]
        | none =>
          cases hvv : env.createVirtual t s with
          | some e =>
              simp [runTechLoop, createDefaultReposIfNeeded, execPlanned, hl, hr, hvv]
          | none =>
            cases hm : env.mkdir (projectsDir p) with
            | some e =>
                simp [runTechLoop, createDefaultReposIfNeeded, createProjectBuildConfigs,
                  execPlanned, hl, hr, hvv, hm]
            | none =>
              cases hw : env.write (techCfgPath p t) (techCfgBytes t s) with
              | some e =>
                  simp [runTechLoop, createDefaultReposIfNeeded, createProjectBuildConfigs,
                    execPlanned, hl, hr, hvv, hm, hw]
              | none =>
                  simp [runTechLoop, createDefaultReposIfNeeded, createProjectBuildConfigs,
                    execPlanned, hl, hr, hvv, hm, hw, ih]

/-- A planned execution that ends without error performed every planned
call, in order. -/
theorem execPlanned_none (plan : List (Effect × Option Err)) :
    (execPlanned plan).2 = none → execPlanned plan = (plan.map Prod.fst, none) := by
  induction plan with
  | nil => intro _; rfl
  | cons pr rest ih =>
      rcases pr with ⟨e, r⟩
      cases r with
      | some err => intro h; simp [execPlanned] at h
      | none =>
          intro h
          have h2 : (execPlanned rest).2 = none := by
            simpa [execPlanned] using h
          simp [execPlanned, ih h2, h2]

/-- The side effects a single technology contributes on the fully
successful path. -/
def techEffects (projectPath serverId : String) (t : Technology) : List Effect :=
  [.provision .localRepo t serverId, .provision .remoteRepo t serverId,
   .provision .virtualRepo t serverId, .mkdirCall (projectsDir projectPath),
   .write (techCfgPath projectPath t) (techCfgBytes t serverId)]

/-- The side effects of the whole technology loop on the fully successful
path. -/
def loopEffects (projectPath serverId : String) : List Technology → List Effect
  | [] => []
  | t :: ts => techEffects projectPath serverId t ++ loopEffects projectPath serverId ts

theorem planOf_map_fst (env : Env) (p s : String) :
    ∀ techs, (planOf env p s techs).map Prod.fst = loopEffects p s techs := by
  intro techs
  induction techs with
  | nil => rfl
  | cons t ts ih => simp [planOf, techPlan, loopEffects, techEffects, ih]

/-- A technology loop that ends without error performed exactly the planned
effects of every technology, in order. -/
theorem runTechLoop_none (env : Env) (p s : String) (techs : List Technology)
    (h : (runTechLoop env p s techs).2 = none) :
    runTechLoop env p s techs = (loopEffects p s techs, none) := by
  rw [runTechLoop_eq_execPlanned] at h ⊢
  rw [execPlanned_none _ h, planOf_map_fst]

/-- `Run` when the loop fails: the detection calls and the loop's effects
happened, nothing later did, and the loop's error is returned unchanged. -/
theorem Run_loop_err (env : Env) (pic : ProjectInitCommand) (sid : String)
    (techs : List Technology) (es : List Effect) (e : Err)
    (hres : resolveServerId env pic = .ok sid)
    (hdet : (detectTechnologies env pic.projectPath).2 = .ok techs)
    (hloop : runTechLoop env pic.projectPath sid techs = (es, some e)) :
    Run env pic = (detectEffects env pic.projectPath ++ es, some e) := by
  rcases hd : detectTechnologies env pic.projectPath with ⟨dcalls, res⟩
  rw [hd] at hdet
  have hres2 : res = .ok techs := hdet
  subst hres2
  unfold Run detectEffects
  simp only [hres, hd, hloop]

/-- `Run` when the loop succeeds but the build-config step fails: the error
is returned unchanged and no summary is printed. -/
theorem Run_bc_err (env : Env) (pic : ProjectInitCommand) (sid : String)
    (techs : List Technology) (es bs : List Effect) (e : Err)
    (hres : resolveServerId env pic = .ok sid)
    (hdet : (detectTechnologies env pic.projectPath).2 = .ok techs)
    (hloop : runTechLoop env pic.projectPath sid techs = (es, none))
    (hbc : createBuildConfig env pic.projectPath = (bs, some e)) :
    Run env pic = (detectEffects env pic.projectPath ++ es ++ bs, some e) := by
  rcases hd : detectTechnologies env pic.projectPath with ⟨dcalls, res⟩
  rw [hd] at hdet
  have hres2 : res = .ok techs := hdet
  subst hres2
  unfold Run detectEffects
  simp only [hres, hd, hloop, hbc]

/-- `Run` when every step up to the build config succeeds: all effects are
kept, the summary is printed, and `Run` returns exactly the printer's
outcome. -/
theorem Run_all_ok (env : Env) (pic : ProjectInitCommand) (sid : String)
    (techs : List Technology) (es bs : List Effect)
    (hres : resolveServerId env pic = .ok sid)
    (hdet : (detectTechnologies env pic.projectPath).2 = .ok techs)
    (hloop : runTechLoop env pic.projectPath sid techs = (es, none))
    (hbc : createBuildConfig env pic.projectPath = (bs, none)) :
    Run env pic =
      (detectEffects env pic.projectPath ++ es ++ bs ++ [Effect.printSummary],
       env.printTable) := by
  rcases hd : detectTechnologies env pic.projectPath with ⟨dcalls, res⟩
  rw [hd] at hdet
  have hres2 : res = .ok techs := hdet
  subst hres2
  unfold Run detectEffects
  simp only [hres, hd, hloop, hbc]

/-- `createBuildConfig` on a fully successful file system. -/
theorem createBuildConfig_ok (env : Env) (p : String)
    (hm : env.mkdir (projectsDir p) = none)
    (hw : env.write (buildCfgPath p) (buildCfgBytes p) = none) :
    createBuildConfig env p =
      ([Effect.mkdirCall (projectsDir p),
        Effect.write (buildCfgPath p) (buildCfgBytes p)], none) := by
  unfold createBuildConfig
  simp only [hm, hw]

/-- `createProjectBuildConfigs` on a fully successful file system. -/
theorem createProjectBuildConfigs_ok (env : Env) (tech : Technology) (p sid : String)
    (hm : env.mkdir (projectsDir p) = none)
    (hw : env.write (techCfgPath p tech) (techCfgBytes tech sid) = none) :
    createProjectBuildConfigs env tech p sid =
      ([Effect.mkdirCall (projectsDir p),
        Effect.write (techCfgPath p tech) (techCfgBytes tech sid)], none) := by
  unfold createProjectBuildConfigs
  simp only [hm, hw]

/-- Whether an effect is a file write. -/
def isWriteEffect : Effect → Bool
  | .write _ _ => true
  | _ => false

/-- The file writes of a trace, in order. -/
def writesOf (tr : List Effect) : List Effect := tr.filter isWriteEffect

/-- The file writes a fully successful run performs: one deployment config
per detected technology (in detection order), then the build config — a
function of the technologies, the project path and the server id only. -/
def expectedWrites (projectPath serverId : String) : List Technology → List Effect
  | [] => [Effect.write (buildCfgPath projectPath) (buildCfgBytes projectPath)]
  | t :: ts => Effect.write (techCfgPath projectPath t) (techCfgBytes t serverId) ::
      expectedWrites projectPath serverId ts

theorem writesOf_append (a b : List Effect) :
    writesOf (a ++ b) = writesOf a ++ writesOf b := by
  unfold writesOf
  rw [List.filter_append]

theorem writesOf_detect (dcalls : List Bool) :
    writesOf (dcalls.map Effect.detectCall) = [] := by
  induction dcalls with
  | nil => rfl
  | cons d rest ih => simp [writesOf, isWriteEffect] at ih ⊢; exact ih

theorem writesOf_detectEffects (env : Env) (p : String) :
    writesOf (detectEffects env p) = [] := by
  unfold detectEffects
  exact writesOf_detect _

theorem writesOf_loopEffects (p s : String) : ∀ techs,
    writesOf (loopEffects p s techs) =
      techs.map (fun t => Effect.write (techCfgPath p t) (techCfgBytes t s)) := by
  intro techs
  induction techs with
  | nil => rfl
  | cons t ts ih =>
      rw [loopEffects, writesOf_append, ih]
      simp [writesOf, techEffects, isWriteEffect]

theorem expectedWrites_eq (p s : String) : ∀ techs,
    expectedWrites p s techs =
      techs.map (fun t => Effect.write (techCfgPath p t) (techCfgBytes t s)) ++
        [Effect.write (buildCfgPath p) (buildCfgBytes p)] := by
  intro techs
  induction techs with
  | nil => rfl
  | cons t ts ih => simp [expectedWrites, ih]

/-- The writes of a fully successful run are exactly the expected writes. -/
theorem run_success_writes (env : Env) (pic : ProjectInitCommand) (sid : String)
    (techs : List Technology)
    (hres : resolveServerId env pic = .ok sid)
    (hdet : (detectTechnologies env pic.projectPath).2 = .ok techs)
    (hok : (Run env pic).2 = none) :
    writesOf (Run env pic).1 = expectedWrites pic.projectPath sid techs := by
  rcases hL : runTechLoop env pic.projectPath sid techs with ⟨es, r⟩
  cases r with
  | some e =>
      have hrun := Run_loop_err env pic sid techs es e hres hdet hL
      rw [hrun] at hok
      simp at hok
  | none =>
      have hes : es = loopEffects pic.projectPath sid techs := by
        have h2 : (runTechLoop env pic.projectPath sid techs).2 = none := by
          rw [hL]
        have := runTechLoop_none env pic.projectPath sid techs h2
        rw [hL] at this
        exact congrArg Prod.fst this
      rcases hB : createBuildConfig env pic.projectPath with ⟨bs, rb⟩
      cases rb with
      | some e =>
          have hrun := Run_bc_err env pic sid techs es bs e hres hdet hL hB
          rw [hrun] at hok
          simp at hok
      | none =>
          have hbs : bs = [Effect.mkdirCall (projectsDir pic.projectPath),
              Effect.write (buildCfgPath pic.projectPath) (buildCfgBytes pic.projectPath)] := by
            unfold createBuildConfig at hB
            cases hm : env.mkdir (projectsDir pic.projectPath) with
            | some e =>
                simp only [hm] at hB
                injection hB with h1 h2
                exact Option.noConfusion h2
            | none =>
                simp only [hm] at hB
                cases hw : env.write (buildCfgPath pic.projectPath)
                    (buildCfgBytes pic.projectPath) with
                | some e =>
                    simp only [hw] at hB
                    injection hB with h1 h2
                    exact Option.noConfusion h2
                | none =>
                    simp only [hw] at hB
                    injection hB with h1 h2
                    exact h1.symm
          have hrun := Run_all_ok env pic sid techs es bs hres hdet hL hB
          rw [hrun, hes, hbs]
          rw [writesOf_append, writesOf_append, writesOf_append,
            writesOf_detectEffects, writesOf_loopEffects, expectedWrites_eq]
          simp [writesOf, isWriteEffect]

/-! ### Concrete environments used by the witnesses -/

/-- A fully successful environment whose detector finds npm only on the
recursive pass. -/
def okEnv : Env :=
  { getDefaultServer := .ok "default-server"
    detect := fun _ recursive => if recursive then .ok [.Npm] else .ok []
    createLocal := fun _ _ => none
    createRemote := fun _ _ => none
    createVirtual := fun _ _ => none
    mkdir := fun _ => none
    write := fun _ _ => none
    printTable := none }

/-- A fully successful environment that detects npm at the root. -/
def npmEnv : Env := { okEnv with detect := fun _ _ => .ok [.Npm] }

/-- An environment whose remote-repository provisioning fails. -/
def failRemoteEnv : Env := { npmEnv with createRemote := fun _ _ => some "remote-error" }

/-- A successful environment whose detector finds nothing at any depth. -/
def emptyDetectEnv : Env := { okEnv with detect := fun _ _ => .ok [] }

/-- A successful environment whose summary print fails with an I/O error. -/
def printFailEnv : Env := { npmEnv with printTable := some "broken pipe" }

/-- The example command of the spec: project path and explicit server id. -/
def pic0 : ProjectInitCommand := { projectPath := "/tmp/p/myapp", serverId := "local-server" }

/-! ### Claims -/

/-- C1: detection is first invoked with recursion disabled; the recursive
pass is invoked if and only if the first pass returned an empty technology
set; the detection step's result is the first pass's result when non-empty
and otherwise the second pass's result. -/
theorem detect_two_pass (env : Env) (path : String) :
    (detectTechnologies env path).1.head? = some false ∧
    ((true ∈ (detectTechnologies env path).1) ↔ env.detect path false = .ok []) ∧
    (∀ m, env.detect path false = .ok m → m ≠ [] →
      (detectTechnologies env path).2 = .ok m) ∧
    (env.detect path false = .ok [] →
      (detectTechnologies env path).2 = env.detect path true) := by
  unfold detectTechnologies
  cases hf : env.detect path false with
  | error e =>
      refine ⟨rfl, by simp, ?_, ?_⟩
      · intro m hm
        exact Except.noConfusion hm
      · intro hm
        exact Except.noConfusion hm
  | ok m =>
      cases m with
      | nil =>
          cases hs : env.detect path true with
          | error e2 =>
              refine ⟨rfl, by simp, ?_, ?_⟩
              · intro m2 hm hne
                injection hm with hm2
                exact absurd hm2.symm hne
              · intro _
                rfl
          | ok m2 =>
              refine ⟨rfl, by simp, ?_, ?_⟩
              · intro m2 hm hne
                injection hm with hm2
                exact absurd hm2.symm hne
              · intro _
                rfl
      | cons t ts =>
          refine ⟨rfl, by simp, ?_, ?_⟩
          · intro m2 hm _
            exact hm
          · intro hm
            injection hm with hm2
            exact List.noConfusion hm2

/-- C1 witness: on a concrete environment whose first pass is empty, the
detection step returns the recursive pass's result. -/
theorem detect_two_pass_witness :
    (detectTechnologies okEnv "/tmp/p/myapp").2 = .ok [Technology.Npm] := by
  have h := (detect_two_pass okEnv "/tmp/p/myapp").2.2.2 rfl
  rw [h]
  rfl

/-- C2: the Maven deployment config record carries `snapshotRepo` and
`releaseRepo` fields equal to the Maven virtual default name (and no `repo`
field) on both resolver and deployer, while every other supported
technology's record carries a single `repo` field equal to its virtual
default name (and no release/snapshot fields). -/
theorem per_tech_repo_fields (sid : String) :
    ((techConfigFile .Maven sid).Resolver.yamlFields =
        (if sid = "" then [] else [("serverId", sid)]) ++
          [("snapshotRepo", MavenVirtualDefaultName),
           ("releaseRepo", MavenVirtualDefaultName)] ∧
     (techConfigFile .Maven sid).Deployer.yamlFields =
        (if sid = "" then [] else [("serverId", sid)]) ++
          [("snapshotRepo", MavenVirtualDefaultName),
           ("releaseRepo", MavenVirtualDefaultName)]) ∧
    ((techConfigFile .Gradle sid).Resolver.yamlFields =
        (if sid = "" then [] else [("serverId", sid)]) ++
          [("repo", GradleVirtualDefaultName)] ∧
     (techConfigFile .Gradle sid).Deployer.yamlFields =
        (if sid = "" then [] else [("serverId", sid)]) ++
          [("repo", GradleVirtualDefaultName)]) ∧
    ((techConfigFile .Npm sid).Resolver.yamlFields =
        (if sid = "" then [] else [("serverId", sid)]) ++
          [("repo", NpmVirtualDefaultName)] ∧
     (techConfigFile .Npm sid).Deployer.yamlFields =
        (if sid = "" then [] else [("serverId", sid)]) ++
          [("repo", NpmVirtualDefaultName)]) ∧
    ((techConfigFile .Go sid).Resolver.yamlFields =
        (if sid = "" then [] else [("serverId", sid)]) ++
          [("repo", GoVirtualDefaultName)] ∧
     (techConfigFile .Go sid).Deployer.yamlFields =
        (if sid = "" then [] else [("serverId", sid)]) ++
          [("repo", GoVirtualDefaultName)]) ∧
    ((techConfigFile .Pip sid).Resolver.yamlFields =
        (if sid = "" then [] else [("serverId", sid)]) ++
          [("repo", PypiVirtualDefaultName)] ∧
     (techConfigFile .Pip sid).Deployer.yamlFields =
        (if sid = "" then [] else [("serverId", sid)]) ++
          [("repo", PypiVirtualDefaultName)]) ∧
    ((techConfigFile .Pipenv sid).Resolver.yamlFields =
        (if sid = "" then [] else [("serverId", sid)]) ++
          [("repo", PypiVirtualDefaultName)] ∧
     (techConfigFile .Pipenv sid).Deployer.yamlFields =
        (if sid = "" then [] else [("serverId", sid)]) ++
          [("repo", PypiVirtualDefaultName)]) := by
  have hM : MavenVirtualDefaultName ≠ "" := by decide
  have hG : GradleVirtualDefaultName ≠ "" := by decide
  have hN : NpmVirtualDefaultName ≠ "" := by decide
  have hGo : GoVirtualDefaultName ≠ "" := by decide
  have hP : PypiVirtualDefaultName ≠ "" := by decide
  refine ⟨⟨?_, ?_⟩, ⟨?_, ?_⟩, ⟨?_, ?_⟩, ⟨?_, ?_⟩, ⟨?_, ?_⟩, ⟨?_, ?_⟩⟩ <;>
    simp [techConfigFile, Repository.yamlFields, hM, hG, hN, hGo, hP]

/-- C3 counterexample: the build name is `Base(Dir(projectPath))`, so a
trailing separator changes it — for `/tmp/p/myapp` the name is the parent
basename `p`, but for `/tmp/p/myapp/` (the same directory with a trailing
separator) it is `myapp`, not `p`. -/
theorem buildName_trailing_counterexample :
    (buildConfigFileOf "/tmp/p/myapp").BuildName = "p" ∧
    (buildConfigFileOf "/tmp/p/myapp/").BuildName = "myapp" ∧
    "myapp" ≠ "p" := by decide

/-- C3 amended: for a project path in canonical absolute form without a
trailing separator, the build name is the basename of the parent directory
(the next-to-last path element); with a trailing separator it is instead
the basename of the path itself (the last element). -/
theorem buildName_parent_dir (comps : List String) (h2 : 2 ≤ comps.length)
    (hv : ∀ e ∈ comps, plainComp e) :
    (buildConfigFileOf (absPathOf comps)).BuildName =
      comps.dropLast.getLast?.getD "" ∧
    (buildConfigFileOf (absPathOf comps ++ "/")).BuildName =
      comps.getLast?.getD "" := by
  have hne : comps ≠ [] := by
    intro hx
    rw [hx] at h2
    simp at h2
  obtain ⟨cs, x, rfl⟩ : ∃ cs x, comps = cs ++ [x] := by
    rcases List.eq_nil_or_concat comps with rfl | ⟨cs, x, hc⟩
    · exact absurd rfl hne
    · exact ⟨cs, x, by rw [hc, List.concat_eq_append]⟩
  · have hcs : cs ≠ [] := by
      intro hx
      rw [hx] at h2
      simp at h2
    have hvcs : ∀ e ∈ cs, plainComp e := fun e he => hv e (List.mem_append_left _ he)
    have hx2 : plainComp x := hv x (List.mem_append_right _ (List.mem_singleton.mpr rfl))
    constructor
    · show projectDirName (absPathOf (cs ++ [x])) = _
      unfold projectDirName
      rw [dir_abs cs x hcs hvcs hx2, base_abs cs hcs hvcs, List.dropLast_concat]
    · show projectDirName (absPathOf (cs ++ [x]) ++ "/") = _
      unfold projectDirName
      rw [dir_abs_slash (cs ++ [x]) hne hv, base_abs (cs ++ [x]) hne hv]

/-- C3 amended witness: for the spec's example path the build name is the
parent basename. -/
theorem buildName_parent_dir_witness :
    2 ≤ (["tmp", "p", "myapp"] : List String).length ∧
    (buildConfigFileOf (absPathOf ["tmp", "p", "myapp"])).BuildName = "p" := by
  refine ⟨by decide, ?_⟩
  have h := (buildName_parent_dir ["tmp", "p", "myapp"] (by decide) (by decide)).1
  rw [h]
  decide

/-- C4: the technology loop performs, per technology and in order, the
local, remote and virtual provisioning calls followed by the config write
(with the directory creation in between), halting at the first failing call
and returning its error unchanged with no later calls and no rollback; and
when the loop fails, `Run` returns that error unchanged having performed
only the detection calls and the loop's effects. -/
theorem provisioning_order_and_halt :
    (∀ (env : Env) (p s : String) (techs : List Technology),
        runTechLoop env p s techs = execPlanned (planOf env p s techs)) ∧
    (∀ (env : Env) (pic : ProjectInitCommand) (sid : String) (techs : List Technology)
        (es : List Effect) (e : Err),
        resolveServerId env pic = .ok sid →
        (detectTechnologies env pic.projectPath).2 = .ok techs →
        runTechLoop env pic.projectPath sid techs = (es, some e) →
        Run env pic = (detectEffects env pic.projectPath ++ es, some e)) :=
  ⟨fun env p s techs => runTechLoop_eq_execPlanned env p s techs,
   fun env pic sid techs es e hres hdet hloop =>
     Run_loop_err env pic sid techs es e hres hdet hloop⟩

/-- C4 witness: with a failing remote-provisioning call, the run performs
the detection call, the local call and the failing remote call, nothing
else, and returns the provisioning error unchanged. -/
theorem provisioning_order_and_halt_witness :
    Run failRemoteEnv pic0 =
      ([Effect.detectCall false,
        Effect.provision .localRepo .Npm "local-server",
        Effect.provision .remoteRepo .Npm "local-server"], some "remote-error") := by
  have h := provisioning_order_and_halt.2 failRemoteEnv pic0 "local-server" [.Npm]
      [Effect.provision .localRepo .Npm "local-server",
       Effect.provision .remoteRepo .Npm "local-server"] "remote-error"
      rfl rfl (by decide)
  rw [h]
  decide

/-- C5: when detection returns the empty technology set, the run performs
no provisioning calls and the only file it can write is the top-level build
config. -/
theorem empty_detection_frame (env : Env) (pic : ProjectInitCommand)
    (hdet : (detectTechnologies env pic.projectPath).2 = .ok []) :
    (∀ k t s, Effect.provision k t s ∉ (Run env pic).1) ∧
    (∀ p b, Effect.write p b ∈ (Run env pic).1 →
      p = buildCfgPath pic.projectPath ∧ b = buildCfgBytes pic.projectPath) := by
  cases hres : resolveServerId env pic with
  | error e =>
      have hrun : Run env pic = ([], some e) := by
        unfold Run
        simp only [hres]
      rw [hrun]
      constructor
      · intro k t s hmem
        simp at hmem
      · intro p b hmem
        simp at hmem
  | ok sid =>
      have hloop : runTechLoop env pic.projectPath sid [] = ([], none) := rfl
      cases hm : env.mkdir (projectsDir pic.projectPath) with
      | some e =>
          have hbc : createBuildConfig env pic.projectPath =
              ([Effect.mkdirCall (projectsDir pic.projectPath)], some e) := by
            unfold createBuildConfig
            simp only [hm]
          have hrun := Run_bc_err env pic sid [] []
            [Effect.mkdirCall (projectsDir pic.projectPath)] e hres hdet hloop hbc
          rw [hrun]
          constructor
          · intro k t s hmem
            simp [detectEffects] at hmem
          · intro p b hmem
            simp [detectEffects] at hmem
      | none =>
          cases hw : env.write (buildCfgPath pic.projectPath) (buildCfgBytes pic.projectPath) with
          | some e =>
              have hbc : createBuildConfig env pic.projectPath =
                  ([Effect.mkdirCall (projectsDir pic.projectPath),
                    Effect.write (buildCfgPath pic.projectPath)
                      (buildCfgBytes pic.projectPath)], some e) := by
                unfold createBuildConfig
                simp only [hm, hw]
              have hrun := Run_bc_err env pic sid [] []
                [Effect.mkdirCall (projectsDir pic.projectPath),
                 Effect.write (buildCfgPath pic.projectPath)
                   (buildCfgBytes pic.projectPath)] e hres hdet hloop hbc
              rw [hrun]
              constructor
              · intro k t s hmem
                simp [detectEffects] at hmem
              · intro p b hmem
                simp [detectEffects] at hmem
                exact ⟨hmem.1, hmem.2⟩
          | none =>
              have hbc := createBuildConfig_ok env pic.projectPath hm hw
              have hrun := Run_all_ok env pic sid [] []
                [Effect.mkdirCall (projectsDir pic.projectPath),
                 Effect.write (buildCfgPath pic.projectPath)
                   (buildCfgBytes pic.projectPath)] hres hdet hloop hbc
              rw [hrun]
              constructor
              · intro k t s hmem
                simp [detectEffects] at hmem
              · intro p b hmem
                simp [detectEffects] at hmem
                exact ⟨hmem.1, hmem.2⟩

/-- C5 witness: with an everywhere-empty detector, a concrete run performs
no provisioning call. -/
theorem empty_detection_frame_witness :
    Effect.provision RepoKind.localRepo (Technology.Other "x") "s" ∉
      (Run emptyDetectEnv pic0).1 :=
  (empty_detection_frame emptyDetectEnv pic0 rfl).1 RepoKind.localRepo
    (Technology.Other "x") "s"

/-- C6: in every deployment config record, for any technology (supported or
not) and any server id, the resolver and deployer repository references are
identical — same server id and same repository names. -/
theorem resolver_deployer_identical (tech : Technology) (sid : String) :
    (techConfigFile tech sid).Resolver = (techConfigFile tech sid).Deployer := by
  cases tech <;> rfl

/-- C7: for every supported technology, the deployment config file is
written at `project/.jfrog/projects/technology-lowercase.yaml`, its version
field is the build-config version constant, and its type field is the
lowercase technology name. -/
theorem tech_config_file_location (comps : List String) (tech : Technology)
    (sid : String) (env : Env) (h : comps ≠ [])
    (hv : ∀ e ∈ comps, plainComp e) (hsup : tech ∈ supportedTechnologies)
    (hm : env.mkdir (projectsDir (absPathOf comps)) = none)
    (hw : env.write (techCfgPath (absPathOf comps) tech) (techCfgBytes tech sid) = none) :
    techCfgPath (absPathOf comps) tech =
      absPathOf (comps ++ [".jfrog", "projects", techConfigFileName tech]) ∧
    techConfigFileName tech = strToLower (techToString tech) ++ ".yaml" ∧
    (techConfigFile tech sid).Version = BuildConfVersion ∧
    (techConfigFile tech sid).ConfigType = strToLower (techToString tech) ∧
    createProjectBuildConfigs env tech (absPathOf comps) sid =
      ([Effect.mkdirCall (projectsDir (absPathOf comps)),
        Effect.write (techCfgPath (absPathOf comps) tech) (techCfgBytes tech sid)],
       none) := by
  have hf : plainComp (techConfigFileName tech) := by
    simp only [supportedTechnologies, List.mem_cons, List.not_mem_nil, or_false] at hsup
    rcases hsup with rfl | rfl | rfl | rfl | rfl | rfl <;> decide
  refine ⟨techCfgPath_abs comps tech h hv hf, rfl, ?_, ?_,
    createProjectBuildConfigs_ok env tech (absPathOf comps) sid hm hw⟩
  · cases tech <;> rfl
  · cases tech <;> rfl

/-- C7 witness: the spec's end-to-end example — the npm config of
`/tmp/p/myapp` goes to `/tmp/p/myapp/.jfrog/projects/npm.yaml`. -/
theorem tech_config_file_location_witness :
    techCfgPath (absPathOf ["tmp", "p", "myapp"]) Technology.Npm =
      "/tmp/p/myapp/.jfrog/projects/npm.yaml" := by
  have h := (tech_config_file_location ["tmp", "p", "myapp"] Technology.Npm
      "local-server" okEnv (by decide) (by decide) (by decide) rfl rfl).1
  rw [h]
  decide

/-- C8: the bytes a successful run writes are a function of the detected
technologies, the project path and the server id only — two runs with the
same inputs and stable (successful) collaborators write byte-identical
files. -/
theorem run_writes_deterministic (env1 env2 : Env) (pic : ProjectInitCommand)
    (sid : String) (techs : List Technology)
    (h1 : resolveServerId env1 pic = .ok sid) (h2 : resolveServerId env2 pic = .ok sid)
    (hd1 : (detectTechnologies env1 pic.projectPath).2 = .ok techs)
    (hd2 : (detectTechnologies env2 pic.projectPath).2 = .ok techs)
    (hs1 : (Run env1 pic).2 = none) (hs2 : (Run env2 pic).2 = none) :
    writesOf (Run env1 pic).1 = expectedWrites pic.projectPath sid techs ∧
    writesOf (Run env1 pic).1 = writesOf (Run env2 pic).1 := by
  have w1 := run_success_writes env1 pic sid techs h1 hd1 hs1
  have w2 := run_success_writes env2 pic sid techs h2 hd2 hs2
  exact ⟨w1, w1.trans w2.symm⟩

/-- C8 witness: a concrete successful run writes exactly the npm config and
the build config. -/
theorem run_writes_deterministic_witness :
    writesOf (Run npmEnv pic0).1 =
      expectedWrites "/tmp/p/myapp" "local-server" [Technology.Npm] :=
  (run_writes_deterministic npmEnv npmEnv pic0 "local-server" [Technology.Npm]
    rfl rfl rfl rfl rfl rfl).1

/-- C9: once provisioning and all config writes have succeeded, the summary
step cannot undo them: the run's effects are all retained with the summary
print appended, and the run's result is exactly the printer's outcome — an
I/O error of the printer at most. -/
theorem summary_print_io_only (env : Env) (pic : ProjectInitCommand) (sid : String)
    (techs : List Technology) (es : List Effect)
    (hres : resolveServerId env pic = .ok sid)
    (hdet : (detectTechnologies env pic.projectPath).2 = .ok techs)
    (hloop : runTechLoop env pic.projectPath sid techs = (es, none))
    (hm : env.mkdir (projectsDir pic.projectPath) = none)
    (hw : env.write (buildCfgPath pic.projectPath) (buildCfgBytes pic.projectPath) = none) :
    (Run env pic).1 =
      detectEffects env pic.projectPath ++ es ++
        [Effect.mkdirCall (projectsDir pic.projectPath),
         Effect.write (buildCfgPath pic.projectPath) (buildCfgBytes pic.projectPath),
         Effect.printSummary] ∧
    (Run env pic).2 = env.printTable := by
  have hbc := createBuildConfig_ok env pic.projectPath hm hw
  have hrun := Run_all_ok env pic sid techs es
    [Effect.mkdirCall (projectsDir pic.projectPath),
     Effect.write (buildCfgPath pic.projectPath) (buildCfgBytes pic.projectPath)]
    hres hdet hloop hbc
  rw [hrun]
  constructor
  · simp
  · rfl

/-- C9 witness: with a failing printer, the completed run returns exactly
the printer's I/O error. -/
theorem summary_print_io_only_witness :
    (Run printFailEnv pic0).2 = some "broken pipe" := by
  have h := summary_print_io_only printFailEnv pic0 "local-server" [Technology.Npm]
      (runTechLoop printFailEnv pic0.projectPath "local-server" [Technology.Npm]).1
      rfl rfl (by decide) rfl rfl
  exact h.2

/-- C10: a detected technology outside the six supported ones still gets a
config file named after its lowercase name, whose resolver and deployer
carry the server id but no repository name at all, and no error is
raised. -/
theorem other_technology_config (s sid : String) (env : Env) (projectPath : String)
    (hm : env.mkdir (projectsDir projectPath) = none)
    (hw : env.write (techCfgPath projectPath (.Other s))
      (techCfgBytes (.Other s) sid) = none) :
    techConfigFile (.Other s) sid =
      { Version := BuildConfVersion, ConfigType := strToLower s,
        Resolver := { ServerId := sid }, Deployer := { ServerId := sid } } ∧
    (techConfigFile (.Other s) sid).Resolver.Repo = "" ∧
    (techConfigFile (.Other s) sid).Resolver.ReleaseRepo = "" ∧
    (techConfigFile (.Other s) sid).Resolver.SnapshotRepo = "" ∧
    (techConfigFile (.Other s) sid).Resolver.yamlFields =
      (if sid = "" then [] else [("serverId", sid)]) ∧
    techConfigFileName (.Other s) = strToLower s ++ ".yaml" ∧
    createProjectBuildConfigs env (.Other s) projectPath sid =
      ([Effect.mkdirCall (projectsDir projectPath),
        Effect.write (techCfgPath projectPath (.Other s))
          (techCfgBytes (.Other s) sid)], none) := by
  refine ⟨rfl, rfl, rfl, rfl, ?_, rfl,
    createProjectBuildConfigs_ok env _ projectPath sid hm hw⟩
  simp [techConfigFile, Repository.yamlFields]

/-- C10 witness: a run over a project detected as `nuget` writes
`nuget.yaml` and reports no error. -/
theorem other_technology_config_witness :
    (createProjectBuildConfigs okEnv (Technology.Other "nuget") "/tmp/p/myapp"
      "local-server").2 = none ∧
    techConfigFileName (Technology.Other "nuget") = "nuget.yaml" := by
  have h := other_technology_config "nuget" "local-server" okEnv "/tmp/p/myapp" rfl rfl
  constructor
  · rw [h.2.2.2.2.2.2]
  · rw [h.2.2.2.2.2.1]
    decide

end ProjectInit
